import Mathlib

/-!
# website-utility: feed resolution, banner insertion and terminal rendering

A shallow embedding of `term.go`:

* `Atoi`, `ParseInt`, `ParseUint` follow Go's `strconv` for base 10 on a 64-bit `int`;
* `getHtml` is the page resolver followed by the fetch / transform / render chain, with the
  network and the third-party libraries taken as a `World` of functions;
* `parseHTML` works on a rose tree standing for `html.Node`, a pointer to a node being the
  path of child positions that leads to it from the document node;
* `renderMarkdown` is the terminal renderer wrapper;
* `sortItemList` is the comparator and the `sort.Slice` call of `getXML`.
-/

namespace WebsiteUtility

/-! ## Errors -/

/-- Go `error` values that travel through `term.go`. -/
inductive GoError where
  /-- The package variable `NegativeId`. -/
  | NegativeId
  /-- An error value made by a library (`net/http`, `io`, `html`, the converter). -/
  | external (msg : String)
  /-- The value of `fmt.Errorf(text ++ "%w", inner)`. -/
  | wrapped (text : String) (inner : GoError)
deriving DecidableEq, Repr

/-- What a Go function body can come to: a run-time panic, or its returned values. -/
inductive Outcome (α : Type) where
  | panic
  | returned (a : α)
deriving DecidableEq, Repr

/-- What a stretch of a function body can come to: a run-time panic, an early
`return "", e`, or falling through to the next line with a value. -/
inductive Step (α : Type) where
  | panic
  | fail (e : GoError)
  | next (a : α)
deriving DecidableEq, Repr

/-! ## strconv -/

/-- The two causes `strconv` reports in a `*NumError`. -/
inductive NumError where
  | ErrSyntax
  | ErrRange
deriving DecidableEq, Repr

/-- Size in bits of `int`. -/
def intSize : Nat := 64

/-- Largest `uint64`. -/
def maxUint64 : Nat := 2 ^ 64 - 1

/-- Test `'0' <= c && c <= '9'`. -/
def isDigit (c : Char) : Bool := decide ('0'.toNat ≤ c.toNat) && decide (c.toNat ≤ '9'.toNat)

/-- Value `c - '0'` of a digit. -/
def digitVal (c : Char) : Nat := c.toNat - '0'.toNat

/-- The loop of `ParseUint(s, 10, 0)` over the remaining characters, `n` being the value
read so far: a character that is no digit is a syntax error, a value past `maxVal` a
range error. The sum `n*10 + d` is taken in `uint64`. -/
def parseUintLoop : List Char → Nat → Nat × Option NumError
  | [], n => (n, none)
  | c :: cs, n =>
    if isDigit c then
      if n ≥ maxUint64 / 10 + 1 then (maxUint64, some .ErrRange)
      else
        let n10 := n * 10
        let n1 := (n10 + digitVal c) % 2 ^ 64
        if n1 < n10 ∨ n1 > maxUint64 then (maxUint64, some .ErrRange)
        else parseUintLoop cs n1
    else (0, some .ErrSyntax)

/-- Go `strconv.ParseUint(s, 10, 0)`. -/
def ParseUint (s : List Char) : Nat × Option NumError :=
  if s = [] then (0, some .ErrSyntax) else parseUintLoop s 0

/-- Go `strconv.ParseInt(s, 10, 0)`. -/
def ParseInt (s : List Char) : Int × Option NumError :=
  match s with
  | [] => (0, some .ErrSyntax)
  | c :: cs =>
    let neg := c = '-'
    let body := if c = '+' ∨ c = '-' then cs else c :: cs
    let (un, err) := ParseUint body
    if err = some .ErrSyntax then (0, err)
    else
      let cutoff : Nat := 2 ^ (intSize - 1)
      if ¬ neg ∧ un ≥ cutoff then ((cutoff : Int) - 1, some .ErrRange)
      else if neg ∧ un > cutoff then (-(cutoff : Int), some .ErrRange)
      else if neg then (-(un : Int), none) else ((un : Int), none)

/-- The loop of the fast path of `Atoi`. -/
def atoiFastLoop : List Char → Nat → Option Nat
  | [], n => some n
  | c :: cs, n => if isDigit c then atoiFastLoop cs (n * 10 + digitVal c) else none

/-- Go `strconv.Atoi`: the returned `int` and the error (`none` is `nil`). Strings of 1 to
18 bytes take the fast path, the others go through `ParseInt`. The string is read
character by character where Go reads bytes: the bytes of a character outside ASCII are
neither digits nor signs, so both readings stop with the same syntax error. -/
def Atoi (s : String) : Int × Option NumError :=
  let sLen := s.utf8ByteSize
  if 0 < sLen ∧ sLen < 19 then
    match s.toList with
    | [] => (0, some .ErrSyntax)
    | c :: cs =>
      let body := if c = '-' ∨ c = '+' then cs else c :: cs
      if (c = '-' ∨ c = '+') ∧ body.length < 1 then (0, some .ErrSyntax)
      else
        match atoiFastLoop body 0 with
        | none => (0, some .ErrSyntax)
        | some n => if c = '-' then (-(n : Int), none) else ((n : Int), none)
  else ParseInt s.toList

/-! ## The feed -/

/-- An `<item>` of the feed. -/
structure Item where
  Title : String
  Link : String
  PubDate : String
deriving DecidableEq, Repr

/-- The `<channel>` of the feed. -/
structure Channel where
  ItemList : List Item
deriving DecidableEq, Repr

/-- The feed document; `Channel` is a pointer, `none` being `nil`. -/
structure Rss where
  Channel : Option Channel
deriving DecidableEq, Repr

/-- The fields of `Config` that `term.go` reads. -/
structure Config where
  BaseUrl : String
  NewsUrl : String
deriving DecidableEq, Repr

/-- Slice indexing `l[idx]`: `none` is the out-of-range panic. -/
def indexItem (l : List Item) (idx : Int) : Option Item :=
  if idx < 0 then none else l[idx.toNat]?

/-- Lines 151 to 167 of `getHtml`: the index with which line 169 reads `ItemList`,
the `NegativeId` return, or the panic of reading `ItemList` through a nil `Channel`. -/
def resolveIndex (rss : Rss) (id : String) : Step Int :=
  let parsed := Atoi id
  let afterDefault : Outcome Int :=
    match parsed.2 with
    | some _ =>
      match rss.Channel with
      | none => .panic
      | some ch => .returned ((ch.ItemList.length : Int) - 1)
    | none => .returned parsed.1
  match afterDefault with
  | .panic => .panic
  | .returned idx =>
    if idx < 0 then .fail .NegativeId
    else
      match rss.Channel with
      | none => .panic
      | some ch =>
        if idx > (ch.ItemList.length : Int) - 1 then .next ((ch.ItemList.length : Int) - 1)
        else .next idx

/-- Lines 151 to 169 of `getHtml`: the entry `item` whose `Link` is fetched. -/
def selectItem (rss : Rss) (id : String) : Step Item :=
  match resolveIndex rss id with
  | .panic => .panic
  | .fail e => .fail e
  | .next idx =>
    match rss.Channel with
    | none => .panic
    | some ch =>
      match indexItem ch.ItemList idx with
      | none => .panic
      | some item => .next item

/-! ## The HTML tree -/

/-- The `html.NodeType` constants. -/
inductive NodeType where
  | ErrorNode
  | TextNode
  | DocumentNode
  | ElementNode
  | CommentNode
  | DoctypeNode
  | RawNode
deriving DecidableEq, Repr

/-- An `html.Attribute`. -/
structure Attribute where
  Namespace : String
  Key : String
  Val : String
deriving DecidableEq, Repr

/-- The fields of an `html.Node` that are not links to other nodes (`Typ` is `Type`). -/
structure NodeData where
  Typ : NodeType
  DataAtom : Nat
  Data : String
  Namespace : String
  Attr : List Attribute
deriving DecidableEq, Repr

/-- An `html.Node` with the nodes below it: the sibling list that starts at
`FirstChild` is `children`. -/
inductive Node where
  | mk (data : NodeData) (children : List Node)
deriving Repr

/-- The non-link fields of a node. -/
def Node.data : Node → NodeData
  | .mk d _ => d

/-- The children of a node, `FirstChild` first. -/
def Node.children : Node → List Node
  | .mk _ cs => cs

/-- A pointer into a tree: the child positions to follow from its top. -/
abbrev Path := List Nat

/-- The node a pointer designates. -/
def nodeAt : Path → Node → Option Node
  | [], n => some n
  | i :: rest, n => (n.children[i]?).bind (nodeAt rest)

/-- A mutation through a pointer: the tree in which the designated node has become
`f` of itself. -/
def modifyAt : Path → (Node → Node) → Node → Node
  | [], f, n => f n
  | i :: rest, f, .mk d cs => .mk d (cs.modify (modifyAt rest f) i)

/-- A literal `&html.Node{Type: t, Data: s}`. -/
def newNode (t : NodeType) (s : String) : Node := .mk ⟨t, 0, s, "", []⟩ []

/-- Method `n.AppendChild(c)` for a detached `c`. -/
def Node.AppendChild (n c : Node) : Node := .mk n.data (n.children ++ [c])

/-- Method `n.InsertBefore(newChild, n.FirstChild)` for a detached `newChild`: before the
first child when there is one, and, `oldChild` being nil otherwise, at the end of the
empty child list. -/
def Node.InsertBeforeFirstChild (n newChild : Node) : Node :=
  match n.children with
  | [] => n.AppendChild newChild
  | c :: cs => .mk n.data (newChild :: c :: cs)

/-- Test `n.Type == html.ElementNode && n.Data == "body"`. -/
def isBody (n : Node) : Bool := decide (n.data.Typ = .ElementNode) && decide (n.data.Data = "body")

mutual
/-- The closure `findBody` called on the node at `here`; `bodyNode` is the captured
variable before the call, the result is that variable after it. -/
def findBody (n : Node) (here : Path) (bodyNode : Option Path) : Option Path :=
  match n with
  | .mk d cs =>
    if decide (d.Typ = .ElementNode) && decide (d.Data = "body") then some here
    else findBodyFrom cs here 0 bodyNode
/-- The loop `for c := n.FirstChild; c != nil; c = c.NextSibling` of `findBody`, from the
child at position `i` on. -/
def findBodyFrom (cs : List Node) (here : Path) (i : Nat) (bodyNode : Option Path) :
    Option Path :=
  match cs with
  | [] => bodyNode
  | c :: rest => findBodyFrom rest here (i + 1) (findBody c (here ++ [i]) bodyNode)
end

/-- The usage banner built at lines 106 to 119. -/
def usageBanner (cfg : Config) : Node :=
  let strongNode := (newNode .ElementNode "strong").AppendChild
    (newNode .TextNode ("👉 Run curl " ++ cfg.NewsUrl ++ "/help for usage"))
  (newNode .ElementNode "p").AppendChild strongNode

/-- Lines 105 to 139 of `parseHTML`: the document after the banner went in; `panic` is the
nil dereference of `doc.FirstChild` on a document node without children. -/
def insertBanner (cfg : Config) (doc : Node) : Outcome Node :=
  let pNode := usageBanner cfg
  match findBody doc [] none with
  | some bodyNode => .returned (modifyAt bodyNode (fun n => n.InsertBeforeFirstChild pNode) doc)
  | none =>
    match doc.children with
    | [] => .panic
    | _ :: _ => .returned (modifyAt [0] (fun n => n.InsertBeforeFirstChild pNode) doc)

/-! ## The libraries and the network -/

/-- The options `renderMarkdown` passes to `glamour.NewTermRenderer`. -/
inductive TermRendererOption where
  | WithStandardStyle (style : String)
  | WithWordWrap (wordWrap : Int)
deriving DecidableEq, Repr

/-- What `term.go` calls outside the repository. A `*glamour.TermRenderer` is known by the
options it was made with, so `Render opts` is the method `Render` of the renderer
`NewTermRenderer(opts...)`; it returns its string together with its error. The error of
`NewTermRenderer` itself is dropped by `renderMarkdown` (`r, _ :=`); the constructor
only fails on an unknown style name, and `"light"` and `"dark"` are standard styles. -/
structure World where
  /-- Function `http.Get(url)`, then `io.ReadAll(resp.Body)` on the response. -/
  httpGet : String → Except GoError (Except GoError String)
  /-- Function `html.Parse`. -/
  htmlParse : String → Except GoError Node
  /-- Function `html.Render` into a `strings.Builder`. -/
  htmlRender : Node → Except GoError String
  /-- Function `htmltomarkdown.ConvertString(html, converter.WithDomain(domain))`. -/
  ConvertString : String → String → Except GoError String
  /-- Method `Render` of the renderer made with the given options. -/
  Render : List TermRendererOption → String → String × Option GoError

/-! ## term.go -/

/-- Lines 199 to 210 of `renderMarkdown`: the options the renderer is made with. -/
def rendererOptions (wrap : Int) (theme : String) : List TermRendererOption :=
  let wrap := if wrap = -1 then 100 else wrap
  let theme := if theme ≠ "light" then "dark" else theme
  [.WithStandardStyle theme, .WithWordWrap wrap]

/-- Function `renderMarkdown`. -/
def renderMarkdown (W : World) (data : String) (wrap : Int) (theme : String) : String :=
  let r := W.Render (rendererOptions wrap theme)
  match r data with
  | (_, some _) => (r "# Error 500").1
  | (out, none) => out

/-- Function `parseHTML`. -/
def parseHTML (W : World) (cfg : Config) (body : String) : Outcome (String × Option GoError) :=
  match W.htmlParse body with
  | .error err =>
    .returned ("", some (.wrapped "parseHTML: error in parsing the html content " err))
  | .ok doc =>
    match insertBanner cfg doc with
    | .panic => .panic
    | .returned doc =>
      match W.htmlRender doc with
      | .error err =>
        .returned
          ("", some (.wrapped "parseHTML: error in building string from parsed HTML " err))
      | .ok out => .returned (out, none)

/-- A call of `getHtml` as seen from outside: the URLs it passed to `http.Get`, in
order, and how it ended. -/
structure Run where
  fetched : List String
  result : Outcome (String × Option GoError)
deriving DecidableEq, Repr

/-- Lines 170 to 194 of `getHtml`, for the selected `item`. -/
def fetchItem (W : World) (cfg : Config) (item : Item) (theme : String) : Run :=
  ⟨[item.Link],
    match W.httpGet item.Link with
    | .error err =>
      .returned ("", some (.wrapped
        ("getHtml: netowrk request failed on get " ++ item.Link ++ " ") err))
    | .ok (.error err) =>
      .returned ("", some (.wrapped
        ("getHtml: failed to read response body " ++ item.Link ++ " ") err))
    | .ok (.ok body) =>
      match parseHTML W cfg body with
      | .panic => .panic
      | .returned (_, some err) => .returned ("", some (.wrapped "getHTML: " err))
      | .returned (htmlData, none) =>
        match W.ConvertString htmlData cfg.BaseUrl with
        | .error err =>
          .returned ("", some (.wrapped
            ("getHtml: markdown conversion failed for " ++ item.Title ++ " ") err))
        | .ok markdown => .returned (renderMarkdown W markdown 120 theme, none)⟩

/-- Function `getHtml`. -/
def getHtml (W : World) (cfg : Config) (rss : Rss) (id theme : String) : Run :=
  match selectItem rss id with
  | .panic => ⟨[], .panic⟩
  | .fail e => ⟨[], .returned ("", some e)⟩
  | .next item => fetchItem W cfg item theme

/-! ## Notions used in the statements -/

/-- Value of a string of decimal digits read after the value `n`. -/
def decimalFrom (n : Nat) (ds : List Char) : Nat :=
  ds.foldl (fun n c => n * 10 + digitVal c) n

/-- Value of a numeral: its digits read in base ten, negated after a minus sign. -/
def numeralValue (sign ds : List Char) : Int :=
  if sign = ['-'] then -(decimalFrom 0 ds : Int) else (decimalFrom 0 ds : Int)

/-- The part of a node that an insertion elsewhere leaves alone: its fields and the
number of its children. -/
def Node.shape (n : Node) : NodeData × Nat := (n.data, n.children.length)

/-- Some node of the tree is a body element. -/
def hasBody (n : Node) : Prop := ∃ q b, nodeAt q n = some b ∧ isBody b = true


/-! ## getXML -/

/-- The closure passed to `sort.Slice` at lines 58 to 67, on the two entries at positions
`i` and `j`; `timeParse` is `time.Parse(time.RFC1123, ·)` giving the instant, and
`timeJ.After(timeI)` is `timeI < timeJ`. -/
def lessByPubDate (timeParse : String → Except GoError Int) (itemI itemJ : Item) : Bool :=
  match timeParse itemI.PubDate, timeParse itemJ.PubDate with
  | .ok timeI, .ok timeJ => decide (timeI < timeJ)
  | _, _ => false

/-- Lines 58 to 67 of `getXML`: the item list after `sort.Slice`. -/
def sortItemList (sortSlice : (Item → Item → Bool) → List Item → List Item)
    (timeParse : String → Except GoError Int) (items : List Item) : List Item :=
  sortSlice (lessByPubDate timeParse) items

/-- Function `getXML`: the new value of the variable `rss`, or a panic. `Unmarshal` is
`xml.Unmarshal` into an empty `Rss`. -/
def getXML (W : World) (Unmarshal : String → Except GoError Rss)
    (sortSlice : (Item → Item → Bool) → List Item → List Item)
    (timeParse : String → Except GoError Int) (cfg : Config) : Outcome Rss :=
  match W.httpGet (cfg.BaseUrl ++ "/feed") with
  | .error _ => .panic
  | .ok (.error _) => .panic
  | .ok (.ok body) =>
    match Unmarshal body with
    | .error _ => .panic
    | .ok rss =>
      match rss.Channel with
      | none => .panic
      | some ch => .returned ⟨some ⟨sortItemList sortSlice timeParse ch.ItemList⟩⟩

/-- What package `sort` asks of a `less` function, on the elements being sorted: a strict
weak ordering (irreflexive, transitive, with transitive incomparability). -/
def StrictWeakOn (less : Item → Item → Bool) (xs : List Item) : Prop :=
  (∀ a ∈ xs, less a a = false) ∧
  (∀ a ∈ xs, ∀ b ∈ xs, ∀ c ∈ xs, less a b = true → less b c = true → less a c = true) ∧
  (∀ a ∈ xs, ∀ b ∈ xs, ∀ c ∈ xs, less a b = false → less b a = false →
    less b c = false → less c b = false → less a c = false ∧ less c a = false)

/-- The contract of `sort.Slice`: the slice is permuted, and when `less` is a strict weak
ordering of its elements no later element is less than an earlier one. -/
def SortSliceContract (sortSlice : (Item → Item → Bool) → List Item → List Item) : Prop :=
  ∀ less xs, (sortSlice less xs).Perm xs ∧
    (StrictWeakOn less xs → (sortSlice less xs).Pairwise (fun a b => less b a = false))

/-- Insertion of `a` before the first element it is less than. -/
def insertByLess (less : Item → Item → Bool) (a : Item) : List Item → List Item
  | [] => [a]
  | b :: l => if less a b then a :: b :: l else b :: insertByLess less a l

/-- Insertion sort, the algorithm `sort.Slice` runs on slices of at most 12 elements. -/
def insertionSortByLess (less : Item → Item → Bool) : List Item → List Item
  | [] => []
  | a :: l => insertByLess less a (insertionSortByLess less l)

/-! ## Sample inputs -/

/-- The tree `html.Parse` builds for
`<!DOCTYPE html><html><head></head><frameset></frameset></html>`: a document node over a
doctype node and the html element, which holds head and frameset and no body. The three
numbers are the `DataAtom` codes of the elements. -/
def framesetDocument (aHtml aHead aFrameset : Nat) : Node :=
  .mk ⟨.DocumentNode, 0, "", "", []⟩
    [.mk ⟨.DoctypeNode, 0, "html", "", []⟩ [],
      .mk ⟨.ElementNode, aHtml, "html", "", []⟩
        [.mk ⟨.ElementNode, aHead, "head", "", []⟩ [],
          .mk ⟨.ElementNode, aFrameset, "frameset", "", []⟩ []]]

/-- A document with a head and a body that holds one heading. -/
def sampleDocument : Node :=
  .mk ⟨.DocumentNode, 0, "", "", []⟩
    [.mk ⟨.ElementNode, 0, "html", "", []⟩
      [.mk ⟨.ElementNode, 0, "head", "", []⟩ [],
        .mk ⟨.ElementNode, 0, "body", "", []⟩ [.mk ⟨.ElementNode, 0, "h1", "", []⟩ []]]]

/-- The configuration of the samples. -/
def sampleConfig : Config := ⟨"https://blog", "https://news"⟩

/-- The feed of the end-to-end example: three weekly entries, oldest first. -/
def weeklyFeed : List Item :=
  [⟨"W0", "https://blog/w0", "Mon, 02 Jan 2006 15:04:05 MST"⟩,
    ⟨"W1", "https://blog/w1", "Mon, 09 Jan 2006 15:04:05 MST"⟩,
    ⟨"W2", "https://blog/w2", "Mon, 16 Jan 2006 15:04:05 MST"⟩]

/-- A world in which every URL answers `<rss></rss>`, the HTML parser gives
`sampleDocument`, and the other libraries hand their input back. -/
def sampleWorld : World :=
  ⟨fun _ => .ok (.ok "<rss></rss>"), fun _ => .ok sampleDocument, fun _ => .ok "<html></html>",
    fun html _ => .ok html, fun _ s => (s, none)⟩

/-- A world whose renderer fails on every input but `"# Error 500"`. -/
def failingRenderWorld : World :=
  ⟨fun _ => .ok (.ok "<rss></rss>"), fun _ => .ok sampleDocument, fun _ => .ok "<html></html>",
    fun html _ => .ok html,
    fun _ s => if s = "# Error 500" then ("Error 500 page", none)
      else ("", some (.external "render failed"))⟩

/-- The text by which `optionEchoWorld` shows the options a renderer was made with. -/
def optionEchoText : List TermRendererOption → String
  | [.WithStandardStyle style, .WithWordWrap wordWrap] =>
    "style=" ++ style ++ " wrap=" ++ toString wordWrap
  | _ => "other options"

/-- A world whose renderer never fails and prints, whatever the input, the options it
was made with. -/
def optionEchoWorld : World :=
  ⟨fun _ => .ok (.ok "<rss></rss>"), fun _ => .ok sampleDocument, fun _ => .ok "<html></html>",
    fun html _ => .ok html, fun opts _ => (optionEchoText opts, none)⟩

/-- A feed of two entries, the more recent one first. -/
def sampleFeed : List Item :=
  [⟨"W1", "https://blog/w1", "Mon, 09 Jan 2006 15:04:05 MST"⟩,
    ⟨"W0", "https://blog/w0", "Mon, 02 Jan 2006 15:04:05 MST"⟩]

/-- A stand-in for `time.Parse` that knows the two dates of `sampleFeed`, as seconds. -/
def sampleTimeParse (s : String) : Except GoError Int :=
  if s = "Mon, 02 Jan 2006 15:04:05 MST" then .ok 1136239445
  else if s = "Mon, 09 Jan 2006 15:04:05 MST" then .ok 1136844245
  else .error (.external "parsing time")

/-! ## strconv on decimal numerals -/

theorem length_le_utf8ByteSize_go (l : List Char) : l.length ≤ String.utf8ByteSize.go l := by
  induction l with
  | nil => simp [String.utf8ByteSize.go]
  | cons c cs ih =>
    have := Char.utf8Size_pos c
    simp only [String.utf8ByteSize.go, List.length_cons]
    omega

theorem length_le_utf8ByteSize (s : String) : s.toList.length ≤ s.utf8ByteSize := by
  cases s with
  | mk l => exact length_le_utf8ByteSize_go l

theorem digitVal_le_of_isDigit (c : Char) (h : isDigit c = true) : digitVal c ≤ 9 := by
  simp only [isDigit, Bool.and_eq_true, decide_eq_true_eq] at h
  have h0 : '0'.toNat = 48 := by decide
  have h9 : '9'.toNat = 57 := by decide
  unfold digitVal
  omega

theorem le_decimalFrom (ds : List Char) (n : Nat) : n ≤ decimalFrom n ds := by
  induction ds generalizing n with
  | nil => simp [decimalFrom]
  | cons c cs ih =>
    have := ih (n * 10 + digitVal c)
    simp only [decimalFrom, List.foldl_cons] at this ⊢
    omega

theorem decimalFrom_lt (ds : List Char) (hd : ∀ c ∈ ds, isDigit c = true) (n : Nat) :
    decimalFrom n ds < (n + 1) * 10 ^ ds.length := by
  induction ds generalizing n with
  | nil => simp [decimalFrom]
  | cons c cs ih =>
    have hc := digitVal_le_of_isDigit c (hd c (List.mem_cons_self _ _))
    have := ih (fun x hx => hd x (List.mem_cons_of_mem _ hx)) (n * 10 + digitVal c)
    simp only [decimalFrom, List.foldl_cons, List.length_cons] at this ⊢
    calc List.foldl (fun n c => n * 10 + digitVal c) (n * 10 + digitVal c) cs
        < (n * 10 + digitVal c + 1) * 10 ^ cs.length := this
      _ ≤ ((n + 1) * 10) * 10 ^ cs.length := Nat.mul_le_mul_right _ (by omega)
      _ = (n + 1) * 10 ^ (cs.length + 1) := by ring

theorem parseUintLoop_digits (ds : List Char) (hd : ∀ c ∈ ds, isDigit c = true) (n : Nat)
    (hn : n ≤ maxUint64) :
    parseUintLoop ds n =
      if decimalFrom n ds ≤ maxUint64 then (decimalFrom n ds, none)
      else (maxUint64, some .ErrRange) := by
  induction ds generalizing n with
  | nil => simp [parseUintLoop, decimalFrom, hn]
  | cons c cs ih =>
    have hc := digitVal_le_of_isDigit c (hd c (List.mem_cons_self _ _))
    have hmono := le_decimalFrom cs (n * 10 + digitVal c)
    have hstep : decimalFrom n (c :: cs) = decimalFrom (n * 10 + digitVal c) cs := rfl
    have hmax : maxUint64 = 18446744073709551615 := by decide
    rw [hstep, parseUintLoop, if_pos (hd c (List.mem_cons_self _ _))]
    by_cases hcut : n ≥ maxUint64 / 10 + 1
    · rw [if_pos hcut, if_neg]
      rw [hmax] at hcut ⊢
      omega
    · rw [if_neg hcut]
      simp only []
      by_cases hov : n * 10 + digitVal c ≤ maxUint64
      · have hmod : (n * 10 + digitVal c) % 2 ^ 64 = n * 10 + digitVal c := by
          apply Nat.mod_eq_of_lt
          rw [hmax] at hov
          omega
        rw [hmod, if_neg (by omega)]
        exact ih (fun x hx => hd x (List.mem_cons_of_mem _ hx)) _ hov
      · rw [if_pos, if_neg (by omega)]
        left
        rw [hmax] at hov hcut
        omega

theorem isDigit_ne_sign (c : Char) (h : isDigit c = true) : c ≠ '+' ∧ c ≠ '-' := by
  constructor <;> rintro rfl <;> revert h <;> decide

theorem ParseInt_signed (neg : Bool) (c : Char) (cs body : List Char) (v : Nat)
    (hneg : (c = '-') ↔ neg = true)
    (hbody : (if c = '+' ∨ c = '-' then cs else c :: cs) = body)
    (hne : body ≠ []) (hd : ∀ x ∈ body, isDigit x = true) (hv : decimalFrom 0 body = v)
    (hout : if neg = true then 2 ^ 63 < v else 2 ^ 63 ≤ v) :
    (ParseInt (c :: cs)).2 = some .ErrRange := by
  have hmax : maxUint64 = 18446744073709551615 := by decide
  have hU : ParseUint body = if v ≤ maxUint64 then (v, none)
      else (maxUint64, some .ErrRange) := by
    rw [ParseUint, if_neg hne, ← hv]
    exact parseUintLoop_digits body hd 0 (by rw [hmax]; omega)
  have hcut : (2 : Nat) ^ (intSize - 1) = 9223372036854775808 := by decide
  have h63 : (2 : Nat) ^ 63 = 9223372036854775808 := by decide
  rw [h63] at hout
  unfold ParseInt
  simp only [hbody, hU, hcut]
  cases neg with
  | false =>
    have hc : ¬ c = '-' := by simp [hneg]
    simp only [Bool.false_eq_true, if_false] at hout
    by_cases hle : v ≤ maxUint64
    · simp only [hle, if_true, hc]
      simp [hout]
    · simp only [hle, if_false, hc]
      simp [hmax]
  | true =>
    have hc : c = '-' := hneg.mpr rfl
    simp only [if_true] at hout
    by_cases hle : v ≤ maxUint64
    · simp only [hle, if_true, hc]
      simp [hout]
    · simp only [hle, if_false, hc]
      simp [hmax]

theorem Atoi_out_of_range (id : String) (sign ds : List Char)
    (hid : id.toList = sign ++ ds)
    (hsign : sign = [] ∨ sign = ['+'] ∨ sign = ['-']) (hne : ds ≠ [])
    (hd : ∀ c ∈ ds, isDigit c = true)
    (hout : numeralValue sign ds < -(2 ^ 63 : Int) ∨ (2 ^ 63 : Int) - 1 < numeralValue sign ds) :
    (Atoi id).2 = some .ErrRange := by
  have h63 : (2 : Int) ^ 63 = 9223372036854775808 := by norm_num
  rw [h63] at hout
  have hslow : ¬ (0 < id.utf8ByteSize ∧ id.utf8ByteSize < 19) := by
    rintro ⟨-, hlt⟩
    have hlen := length_le_utf8ByteSize id
    rw [hid, List.length_append] at hlen
    have hv := decimalFrom_lt ds hd 0
    have hpow : 10 ^ ds.length ≤ 10 ^ 18 := Nat.pow_le_pow_right (by decide) (by omega)
    have h18 : (10 : Nat) ^ 18 = 1000000000000000000 := by norm_num
    rw [h18] at hpow
    unfold numeralValue at hout
    split_ifs at hout <;> omega
  unfold Atoi
  simp only [hslow, if_false, hid]
  obtain ⟨c, cs, hds⟩ := List.exists_cons_of_ne_nil hne
  have hcd : isDigit c = true := hd c (by rw [hds]; exact List.mem_cons_self _ _)
  have hcs := isDigit_ne_sign c hcd
  rcases hsign with rfl | rfl | rfl
  · rw [List.nil_append, hds]
    refine ParseInt_signed false c cs ds (decimalFrom 0 ds) (by simp [hcs.2])
      (by simp [hcs.1, hcs.2, hds]) hne hd rfl ?_
    simp only [numeralValue, List.nil_eq, reduceCtorEq, if_false] at hout
    simp only [Bool.false_eq_true, if_false]
    have h63n : (2 : Nat) ^ 63 = 9223372036854775808 := by norm_num
    omega
  · refine ParseInt_signed false '+' ds ds (decimalFrom 0 ds) (by decide)
      (by simp) hne hd rfl ?_
    simp only [numeralValue] at hout
    rw [if_neg (by decide)] at hout
    simp only [Bool.false_eq_true, if_false]
    have h63n : (2 : Nat) ^ 63 = 9223372036854775808 := by norm_num
    omega
  · refine ParseInt_signed true '-' ds ds (decimalFrom 0 ds) (by decide)
      (by simp) hne hd rfl ?_
    simp only [numeralValue, if_true] at hout
    simp only [if_true]
    have h63n : (2 : Nat) ^ 63 = 9223372036854775808 := by norm_num
    omega

/-! ## Page resolution -/

theorem resolveIndex_parsed (items : List Item) (id : String) (k : Int)
    (hk : Atoi id = (k, none)) :
    resolveIndex ⟨some ⟨items⟩⟩ id =
      if k < 0 then .fail .NegativeId
      else if k > (items.length : Int) - 1 then .next ((items.length : Int) - 1)
      else .next k := by
  simp only [resolveIndex, hk]

theorem resolveIndex_unparsed (items : List Item) (id : String)
    (hid : (Atoi id).2 ≠ none) :
    resolveIndex ⟨some ⟨items⟩⟩ id =
      if (items.length : Int) - 1 < 0 then .fail .NegativeId
      else .next ((items.length : Int) - 1) := by
  obtain ⟨e, he⟩ := Option.ne_none_iff_exists'.mp hid
  simp only [resolveIndex, he]
  split_ifs with h1 h2
  · rfl
  · exact absurd h2 (lt_irrefl _)
  · rfl

theorem indexItem_ofNat (items : List Item) (i : Nat) :
    indexItem items (i : Int) = items[i]? := by
  simp [indexItem]

theorem selectItem_of_next (items : List Item) (id : String) (i : Nat)
    (h : resolveIndex ⟨some ⟨items⟩⟩ id = .next (i : Int)) :
    selectItem ⟨some ⟨items⟩⟩ id =
      match items[i]? with
      | none => .panic
      | some item => .next item := by
  simp only [selectItem, h, indexItem_ofNat]

theorem selectItem_unparsed (items : List Item) (id : String) (hid : (Atoi id).2 ≠ none)
    (h : items ≠ []) : selectItem ⟨some ⟨items⟩⟩ id = .next (items.getLast h) := by
  have hlen : 0 < items.length := List.length_pos.mpr h
  have hidx : resolveIndex ⟨some ⟨items⟩⟩ id = .next ((items.length - 1 : Nat) : Int) := by
    rw [resolveIndex_unparsed items id hid]
    split_ifs with h1
    · omega
    · congr 1; omega
  rw [selectItem_of_next items id _ hidx, List.getLast_eq_getElem,
    List.getElem?_eq_getElem (by omega)]

theorem fetchItem_result_ne_NegativeId (W : World) (cfg : Config) (item : Item)
    (theme : String) :
    (fetchItem W cfg item theme).result ≠ .returned ("", some .NegativeId) := by
  unfold fetchItem
  simp only
  split
  · simp
  · simp
  · split
    · simp
    · simp
    · split <;> simp

/-- C1: on a non-empty feed, an id that `Atoi` parses to `k ≥ 0` makes `getHtml` select
`ItemList[min(k, n-1)]`: that entry exists, it is the one line 169 reads, and its link is
the one URL the call fetches. -/
theorem getHtml_selects_clamped_entry (W : World) (cfg : Config) (items : List Item)
    (id theme : String) (k : Int) (hne : items ≠ []) (hk : Atoi id = (k, none))
    (hk0 : 0 ≤ k) :
    ∃ item, items[min k.toNat (items.length - 1)]? = some item ∧
      selectItem ⟨some ⟨items⟩⟩ id = .next item ∧
      getHtml W cfg ⟨some ⟨items⟩⟩ id theme = fetchItem W cfg item theme ∧
      (getHtml W cfg ⟨some ⟨items⟩⟩ id theme).fetched = [item.Link] := by
  have hlen : 0 < items.length := List.length_pos.mpr hne
  have hlt : min k.toNat (items.length - 1) < items.length := by omega
  refine ⟨items[min k.toNat (items.length - 1)], List.getElem?_eq_getElem hlt, ?_⟩
  have hres : resolveIndex ⟨some ⟨items⟩⟩ id =
      .next ((min k.toNat (items.length - 1) : Nat) : Int) := by
    rw [resolveIndex_parsed items id k hk]
    split_ifs with h1 h2
    · omega
    · congr 1; omega
    · congr 1; omega
  have hsel := selectItem_of_next items id _ hres
  rw [List.getElem?_eq_getElem hlt] at hsel
  refine ⟨hsel, ?_, ?_⟩
  · simp only [getHtml, hsel]
  · simp only [getHtml, hsel, fetchItem]

theorem getHtml_selects_clamped_entry_witness :
    ∃ item, weeklyFeed[min (99 : Int).toNat (weeklyFeed.length - 1)]? = some item ∧
      selectItem ⟨some ⟨weeklyFeed⟩⟩ "99" = .next item ∧
      getHtml sampleWorld sampleConfig ⟨some ⟨weeklyFeed⟩⟩ "99" "dark" =
        fetchItem sampleWorld sampleConfig item "dark" ∧
      (getHtml sampleWorld sampleConfig ⟨some ⟨weeklyFeed⟩⟩ "99" "dark").fetched =
        [item.Link] :=
  getHtml_selects_clamped_entry sampleWorld sampleConfig weeklyFeed "99" "dark" 99
    (by decide) (by decide) (by decide)

/-- C2: whatever the feed (even with a nil channel), an id that `Atoi` parses to a negative
integer makes `getHtml` return the empty string with `NegativeId`, select no entry and
fetch nothing. -/
theorem getHtml_negative_id (W : World) (cfg : Config) (rss : Rss) (id theme : String)
    (k : Int) (hk : Atoi id = (k, none)) (hneg : k < 0) :
    selectItem rss id = .fail .NegativeId ∧
      getHtml W cfg rss id theme = ⟨[], .returned ("", some .NegativeId)⟩ := by
  have hres : resolveIndex rss id = .fail .NegativeId := by
    simp only [resolveIndex, hk, if_pos hneg]
  have hsel : selectItem rss id = .fail .NegativeId := by
    simp only [selectItem, hres]
  exact ⟨hsel, by simp only [getHtml, hsel]⟩

theorem getHtml_negative_id_witness :
    selectItem ⟨some ⟨weeklyFeed⟩⟩ "-1" = .fail .NegativeId ∧
      getHtml sampleWorld sampleConfig ⟨some ⟨weeklyFeed⟩⟩ "-1" "light" =
        ⟨[], .returned ("", some .NegativeId)⟩ :=
  getHtml_negative_id sampleWorld sampleConfig ⟨some ⟨weeklyFeed⟩⟩ "-1" "light" (-1)
    (by decide) (by decide)

/-- C3: an id that `Atoi` rejects is resolved exactly as an id that parses to `n - 1`:
same index step, same selection, same run of `getHtml`; on a non-empty feed the entry
selected is the last one. -/
theorem getHtml_unparsed_id_as_last (W : World) (cfg : Config) (items : List Item)
    (id idLast theme : String) (hid : (Atoi id).2 ≠ none)
    (hlast : Atoi idLast = ((items.length : Int) - 1, none)) :
    resolveIndex ⟨some ⟨items⟩⟩ id = resolveIndex ⟨some ⟨items⟩⟩ idLast ∧
      selectItem ⟨some ⟨items⟩⟩ id = selectItem ⟨some ⟨items⟩⟩ idLast ∧
      getHtml W cfg ⟨some ⟨items⟩⟩ id theme = getHtml W cfg ⟨some ⟨items⟩⟩ idLast theme ∧
      (∀ h : items ≠ [], selectItem ⟨some ⟨items⟩⟩ id = .next (items.getLast h)) := by
  have hres : resolveIndex ⟨some ⟨items⟩⟩ id = resolveIndex ⟨some ⟨items⟩⟩ idLast := by
    rw [resolveIndex_unparsed items id hid, resolveIndex_parsed items idLast _ hlast]
    simp
  have hsel : selectItem ⟨some ⟨items⟩⟩ id = selectItem ⟨some ⟨items⟩⟩ idLast := by
    simp only [selectItem, hres]
  exact ⟨hres, hsel, by simp only [getHtml, hsel], selectItem_unparsed items id hid⟩

theorem getHtml_unparsed_id_as_last_witness :
    resolveIndex ⟨some ⟨weeklyFeed⟩⟩ "abc" = resolveIndex ⟨some ⟨weeklyFeed⟩⟩ "2" ∧
      selectItem ⟨some ⟨weeklyFeed⟩⟩ "abc" = selectItem ⟨some ⟨weeklyFeed⟩⟩ "2" ∧
      getHtml sampleWorld sampleConfig ⟨some ⟨weeklyFeed⟩⟩ "abc" "" =
        getHtml sampleWorld sampleConfig ⟨some ⟨weeklyFeed⟩⟩ "2" "" ∧
      (∀ h : weeklyFeed ≠ [],
        selectItem ⟨some ⟨weeklyFeed⟩⟩ "abc" = .next (weeklyFeed.getLast h)) :=
  getHtml_unparsed_id_as_last sampleWorld sampleConfig weeklyFeed "abc" "2" ""
    (by decide) (by decide)

/-- C9: when `getHtml` gets past the `NegativeId` test, the index of the read at line 169
is in range exactly when the feed is non-empty. On the empty feed an id parsed to `k ≥ 0`
is clamped to `-1`, the read is out of range and `getHtml` panics before any fetch, while
an id `Atoi` rejects gives `NegativeId`. -/
theorem getHtml_read_in_range_iff_nonempty (W : World) (cfg : Config) (items : List Item)
    (id theme : String) :
    (∀ idx, resolveIndex ⟨some ⟨items⟩⟩ id = .next idx →
      ((0 ≤ idx ∧ idx < (items.length : Int)) ↔ items ≠ []) ∧
      ((indexItem items idx).isSome ↔ items ≠ [])) ∧
    (items = [] → ∀ k, Atoi id = (k, none) → 0 ≤ k →
      resolveIndex ⟨some ⟨items⟩⟩ id = .next (-1) ∧ indexItem items (-1) = none ∧
      getHtml W cfg ⟨some ⟨items⟩⟩ id theme = ⟨[], .panic⟩) ∧
    (items = [] → (Atoi id).2 ≠ none →
      getHtml W cfg ⟨some ⟨items⟩⟩ id theme = ⟨[], .returned ("", some .NegativeId)⟩) := by
  refine ⟨?_, ?_, ?_⟩
  · intro idx hidx
    have hlen : items ≠ [] ↔ 0 < items.length := List.length_pos.symm
    have hrange : (0 ≤ idx ∧ idx < (items.length : Int)) ↔ items ≠ [] := by
      rw [hlen]
      rcases h : (Atoi id).2 with _ | e
      · have hk : Atoi id = ((Atoi id).1, none) := by rw [← h]
        rw [resolveIndex_parsed items id _ hk] at hidx
        split_ifs at hidx with h1 h2
        · injection hidx with hi; omega
        · injection hidx with hi; omega
      · rw [resolveIndex_unparsed items id (by simp [h])] at hidx
        split_ifs at hidx with h1
        injection hidx with hi; omega
    refine ⟨hrange, ?_⟩
    rw [← hrange, Option.isSome_iff_ne_none]
    unfold indexItem
    split_ifs with h0
    · simp only [ne_eq, not_true_eq_false, false_iff]; omega
    · rw [ne_eq, List.getElem?_eq_none_iff]; omega
  · rintro rfl k hk hk0
    have hres : resolveIndex ⟨some ⟨[]⟩⟩ id = .next (-1) := by
      rw [resolveIndex_parsed [] id k hk]
      simp only [List.length_nil, Nat.cast_zero, zero_sub]
      rw [if_neg (by omega), if_pos (by omega)]
    refine ⟨hres, rfl, ?_⟩
    simp only [getHtml, selectItem, hres]
    rfl
  · rintro rfl hid
    have hres : resolveIndex ⟨some ⟨[]⟩⟩ id = .fail .NegativeId := by
      rw [resolveIndex_unparsed [] id hid]
      rfl
    simp only [getHtml, selectItem, hres]

theorem getHtml_read_in_range_iff_nonempty_witness :
    ((((0 : Int) ≤ 1 ∧ (1 : Int) < (weeklyFeed.length : Int)) ↔ weeklyFeed ≠ []) ∧
        ((indexItem weeklyFeed 1).isSome ↔ weeklyFeed ≠ [])) ∧
      (resolveIndex ⟨some ⟨[]⟩⟩ "5" = .next (-1) ∧ indexItem [] (-1) = none ∧
        getHtml sampleWorld sampleConfig ⟨some ⟨[]⟩⟩ "5" "" = ⟨[], .panic⟩) ∧
      getHtml sampleWorld sampleConfig ⟨some ⟨[]⟩⟩ "abc" "" =
        ⟨[], .returned ("", some .NegativeId)⟩ :=
  ⟨(getHtml_read_in_range_iff_nonempty sampleWorld sampleConfig weeklyFeed "1" "").1 1
      (by decide),
    (getHtml_read_in_range_iff_nonempty sampleWorld sampleConfig [] "5" "").2.1 rfl 5
      (by decide) (by decide),
    (getHtml_read_in_range_iff_nonempty sampleWorld sampleConfig [] "abc" "").2.2 rfl
      (by decide)⟩

/-- C10: on a non-empty feed, an id that is a decimal numeral (digits after an optional
sign) whose value is outside the range of `int` makes `Atoi` report a range error, and
`getHtml` then selects and fetches the last entry and does not return `NegativeId`, even
for a negative numeral. -/
theorem getHtml_out_of_range_numeral (W : World) (cfg : Config) (items : List Item)
    (id theme : String) (sign ds : List Char) (hid : id.toList = sign ++ ds)
    (hsign : sign = [] ∨ sign = ['+'] ∨ sign = ['-']) (hds : ds ≠ [])
    (hdigits : ∀ c ∈ ds, isDigit c = true)
    (hout : numeralValue sign ds < -(2 ^ 63 : Int) ∨
      (2 ^ 63 : Int) - 1 < numeralValue sign ds)
    (hne : items ≠ []) :
    (Atoi id).2 = some .ErrRange ∧
      selectItem ⟨some ⟨items⟩⟩ id = .next (items.getLast hne) ∧
      getHtml W cfg ⟨some ⟨items⟩⟩ id theme = fetchItem W cfg (items.getLast hne) theme ∧
      (getHtml W cfg ⟨some ⟨items⟩⟩ id theme).fetched = [(items.getLast hne).Link] ∧
      (getHtml W cfg ⟨some ⟨items⟩⟩ id theme).result ≠ .returned ("", some .NegativeId) := by
  have herr := Atoi_out_of_range id sign ds hid hsign hds hdigits hout
  have hsel := selectItem_unparsed items id (by simp [herr]) hne
  have hget : getHtml W cfg ⟨some ⟨items⟩⟩ id theme =
      fetchItem W cfg (items.getLast hne) theme := by
    simp only [getHtml, hsel]
  refine ⟨herr, hsel, hget, ?_, ?_⟩
  · rw [hget]; rfl
  · rw [hget]; exact fetchItem_result_ne_NegativeId W cfg _ theme

theorem getHtml_out_of_range_numeral_witness :
    (Atoi "-99999999999999999999").2 = some .ErrRange ∧
      selectItem ⟨some ⟨weeklyFeed⟩⟩ "-99999999999999999999" =
        .next (weeklyFeed.getLast (by decide)) ∧
      getHtml sampleWorld sampleConfig ⟨some ⟨weeklyFeed⟩⟩ "-99999999999999999999" "" =
        fetchItem sampleWorld sampleConfig (weeklyFeed.getLast (by decide)) "" ∧
      (getHtml sampleWorld sampleConfig ⟨some ⟨weeklyFeed⟩⟩
        "-99999999999999999999" "").fetched = [(weeklyFeed.getLast (by decide)).Link] ∧
      (getHtml sampleWorld sampleConfig ⟨some ⟨weeklyFeed⟩⟩
        "-99999999999999999999" "").result ≠ .returned ("", some .NegativeId) :=
  getHtml_out_of_range_numeral sampleWorld sampleConfig weeklyFeed
    "-99999999999999999999" "" ['-'] "99999999999999999999".toList (by decide)
    (by decide) (by decide) (by decide) (by decide) (by decide)

/-! ## Terminal rendering -/

theorem rendererOptions_eq (wrap : Int) (theme : String) :
    rendererOptions wrap theme =
      [.WithStandardStyle (if theme = "light" then "light" else "dark"),
        .WithWordWrap (if wrap = -1 then 100 else wrap)] := by
  unfold rendererOptions
  by_cases ht : theme = "light"
  · simp [ht]
  · simp [ht]

theorem renderMarkdown_eq (W : World) (data : String) (wrap : Int) (theme : String) :
    renderMarkdown W data wrap theme =
      if (W.Render (rendererOptions wrap theme) data).2 = none then
        (W.Render (rendererOptions wrap theme) data).1
      else (W.Render (rendererOptions wrap theme) "# Error 500").1 := by
  unfold renderMarkdown
  rcases h : W.Render (rendererOptions wrap theme) data with ⟨out, _ | e⟩
  · simp [h]
  · simp [h]

/-- C7: for every world, text, wrap value and theme, what `renderMarkdown` returns is
what comes out of the renderer made with style `"light"` exactly when `theme` is
`"light"` (`"dark"` for every other theme, the empty one included) and with word wrap 100
when `wrap` is `-1` (`wrap` itself otherwise, so 120 stays 120): the output of `Render`
of that renderer on the text, or of its `Render` on `"# Error 500"` when the first call
fails. As the world is arbitrary, no other options can have been passed. -/
theorem renderMarkdown_renderer_options (W : World) (data : String) (wrap : Int)
    (theme : String) :
    (renderMarkdown W data wrap theme =
      if (W.Render [.WithStandardStyle (if theme = "light" then "light" else "dark"),
          .WithWordWrap (if wrap = -1 then 100 else wrap)] data).2 = none then
        (W.Render [.WithStandardStyle (if theme = "light" then "light" else "dark"),
          .WithWordWrap (if wrap = -1 then 100 else wrap)] data).1
      else
        (W.Render [.WithStandardStyle (if theme = "light" then "light" else "dark"),
          .WithWordWrap (if wrap = -1 then 100 else wrap)] "# Error 500").1) ∧
    (renderMarkdown W data (-1) "light" =
      if (W.Render [.WithStandardStyle "light", .WithWordWrap 100] data).2 = none then
        (W.Render [.WithStandardStyle "light", .WithWordWrap 100] data).1
      else (W.Render [.WithStandardStyle "light", .WithWordWrap 100] "# Error 500").1) ∧
    (renderMarkdown W data 120 "" =
      if (W.Render [.WithStandardStyle "dark", .WithWordWrap 120] data).2 = none then
        (W.Render [.WithStandardStyle "dark", .WithWordWrap 120] data).1
      else (W.Render [.WithStandardStyle "dark", .WithWordWrap 120] "# Error 500").1) ∧
    (renderMarkdown optionEchoWorld data wrap theme =
      optionEchoText [.WithStandardStyle (if theme = "light" then "light" else "dark"),
        .WithWordWrap (if wrap = -1 then 100 else wrap)]) ∧
    renderMarkdown optionEchoWorld data (-1) "Light" = "style=dark wrap=100" ∧
    renderMarkdown optionEchoWorld data 120 "light" = "style=light wrap=120" ∧
    renderMarkdown optionEchoWorld data 80 "" = "style=dark wrap=80" := by
  have hecho : ∀ (w : Int) (t : String), renderMarkdown optionEchoWorld data w t =
      optionEchoText [.WithStandardStyle (if t = "light" then "light" else "dark"),
        .WithWordWrap (if w = -1 then 100 else w)] := by
    intro w t
    rw [renderMarkdown_eq, rendererOptions_eq]
    rfl
  refine ⟨?_, ?_, ?_, hecho wrap theme, ?_, ?_, ?_⟩
  · rw [renderMarkdown_eq, rendererOptions_eq]
  · rw [renderMarkdown_eq, rendererOptions_eq]
    rfl
  · rw [renderMarkdown_eq, rendererOptions_eq]
    rfl
  · rw [hecho]
    decide
  · rw [hecho]
    decide
  · rw [hecho]
    decide

/-- C8: when `Render` fails on the input, `renderMarkdown` returns the string the same
renderer gives for `"# Error 500"` (whatever error that second call reports); when
`Render` succeeds, `renderMarkdown` returns its output unchanged. The result is a plain
string: no error reaches the caller. -/
theorem renderMarkdown_error_fallback (W : World) (data : String) (wrap : Int)
    (theme : String) :
    ((W.Render (rendererOptions wrap theme) data).2 ≠ none →
      renderMarkdown W data wrap theme =
        (W.Render (rendererOptions wrap theme) "# Error 500").1) ∧
    ((W.Render (rendererOptions wrap theme) data).2 = none →
      renderMarkdown W data wrap theme = (W.Render (rendererOptions wrap theme) data).1) := by
  unfold renderMarkdown
  rcases h : W.Render (rendererOptions wrap theme) data with ⟨out, _ | e⟩
  · simp [h]
  · simp [h]

theorem renderMarkdown_error_fallback_witness :
    renderMarkdown failingRenderWorld "# Title" 120 "light" = "Error 500 page" ∧
      renderMarkdown sampleWorld "# Title" 120 "light" = "# Title" :=
  ⟨(renderMarkdown_error_fallback failingRenderWorld "# Title" 120 "light").1 (by decide),
    (renderMarkdown_error_fallback sampleWorld "# Title" 120 "light").2 (by decide)⟩

/-! ## Banner insertion -/

mutual
theorem findBody_spec : ∀ (n : Node) (here : Path) (st : Option Path),
    (hasBody n → ∃ q b, findBody n here st = some (here ++ q) ∧ nodeAt q n = some b ∧
      isBody b = true) ∧ (¬ hasBody n → findBody n here st = st)
  | .mk d cs, here, st => by
    by_cases hb : isBody (.mk d cs) = true
    · have hf : findBody (.mk d cs) here st = some here := by
        rw [findBody]
        exact if_pos hb
      refine ⟨fun _ => ⟨[], .mk d cs, by simpa using hf, rfl, hb⟩, fun hn => ?_⟩
      exact absurd ⟨[], .mk d cs, rfl, hb⟩ hn
    · have hf : findBody (.mk d cs) here st = findBodyFrom cs here 0 st := by
        rw [findBody]
        exact if_neg hb
      have ih := findBodyFrom_spec cs here 0 st
      have hiff : hasBody (.mk d cs) ↔ ∃ (j : Nat) (c : Node), cs[j]? = some c ∧ hasBody c := by
        constructor
        · rintro ⟨q, b, hq, hqb⟩
          cases q with
          | nil =>
            simp only [nodeAt, Option.some.injEq] at hq
            subst hq
            exact absurd hqb hb
          | cons j r =>
            simp only [nodeAt, Node.children] at hq
            rcases hc : cs[j]? with _ | c
            · simp [hc] at hq
            · rw [hc] at hq
              exact ⟨j, c, hc, r, b, hq, hqb⟩
        · rintro ⟨j, c, hc, r, b, hr, hrb⟩
          exact ⟨j :: r, b, by simp [nodeAt, Node.children, hc, hr], hrb⟩
      rw [hf]
      refine ⟨fun h => ?_, fun h => ih.2 (fun h2 => h (hiff.mpr h2))⟩
      obtain ⟨j, c, q, b, hc, hres, hq, hqb⟩ := ih.1 (hiff.mp h)
      refine ⟨(0 + j) :: q, b, hres, ?_, hqb⟩
      simp [nodeAt, Node.children, hc, hq]
theorem findBodyFrom_spec : ∀ (cs : List Node) (here : Path) (i : Nat) (st : Option Path),
    ((∃ (j : Nat) (c : Node), cs[j]? = some c ∧ hasBody c) → ∃ (j : Nat) (c : Node) (q : Path) (b : Node), cs[j]? = some c ∧
      findBodyFrom cs here i st = some (here ++ (i + j) :: q) ∧ nodeAt q c = some b ∧
      isBody b = true) ∧
    ((¬ ∃ (j : Nat) (c : Node), cs[j]? = some c ∧ hasBody c) → findBodyFrom cs here i st = st)
  | [], here, i, st => by
    refine ⟨?_, fun _ => by rw [findBodyFrom]⟩
    rintro ⟨j, c, hc, -⟩
    simp at hc
  | c :: rest, here, i, st => by
    have ihc := findBody_spec c (here ++ [i]) st
    have ihr := findBodyFrom_spec rest here (i + 1) (findBody c (here ++ [i]) st)
    have hf : findBodyFrom (c :: rest) here i st =
        findBodyFrom rest here (i + 1) (findBody c (here ++ [i]) st) := by
      rw [findBodyFrom]
    rw [hf]
    by_cases hr : ∃ (j : Nat) (c : Node), rest[j]? = some c ∧ hasBody c
    · refine ⟨fun _ => ?_, fun hn => ?_⟩
      · obtain ⟨j, c2, q, b, hc2, hres, hq, hqb⟩ := ihr.1 hr
        refine ⟨j + 1, c2, q, b, by simpa using hc2, ?_, hq, hqb⟩
        rw [hres, Nat.add_assoc, Nat.add_comm 1 j]
      · obtain ⟨j, c2, hc2, hb2⟩ := hr
        exact absurd ⟨j + 1, c2, by simpa using hc2, hb2⟩ hn
    · rw [ihr.2 hr]
      by_cases hcb : hasBody c
      · refine ⟨fun _ => ?_, fun hn => absurd ⟨0, c, List.getElem?_cons_zero, hcb⟩ hn⟩
        obtain ⟨q, b, hres, hq, hqb⟩ := ihc.1 hcb
        exact ⟨0, c, q, b, List.getElem?_cons_zero, by simpa using hres, hq, hqb⟩
      · refine ⟨?_, fun _ => ihc.2 hcb⟩
        rintro ⟨j, c2, hc2, hb2⟩
        cases j with
        | zero =>
          simp only [List.getElem?_cons_zero, Option.some.injEq] at hc2
          subst hc2
          exact absurd hb2 hcb
        | succ j =>
          exact absurd ⟨j, c2, by simpa using hc2, hb2⟩ hr
end

theorem nodeAt_modifyAt_self (f : Node → Node) : ∀ (p : Path) (n : Node),
    nodeAt p (modifyAt p f n) = (nodeAt p n).map f
  | [], n => rfl
  | i :: rest, .mk d cs => by
    simp only [nodeAt, modifyAt, Node.children, List.getElem?_modify_eq]
    rcases cs[i]? with _ | c
    · rfl
    · exact nodeAt_modifyAt_self f rest c

theorem nodeAt_modifyAt_shape (f : Node → Node) : ∀ (p q : Path) (n : Node),
    (∀ r, q ≠ p ++ r) →
      (nodeAt q (modifyAt p f n)).map Node.shape = (nodeAt q n).map Node.shape
  | [], q, n, h => absurd rfl (h q)
  | i :: rest, [], .mk d cs, _ => by
    simp [nodeAt, modifyAt, Node.shape, Node.data, Node.children]
  | i :: rest, j :: r, .mk d cs, h => by
    simp only [nodeAt, modifyAt, Node.children]
    by_cases hij : i = j
    · subst hij
      rw [List.getElem?_modify_eq]
      rcases cs[i]? with _ | c
      · rfl
      · refine nodeAt_modifyAt_shape f rest r c (fun r2 hr => h r2 ?_)
        rw [hr]; rfl
    · rw [List.getElem?_modify_ne _ _ hij]

/-- C5: when the tree holds a body element, the insertion step returns a tree in which a
body element of the original, at pointer `p`, has the usage banner as first child followed
by its original children in order, and every node outside that element keeps its fields
and its number of children. -/
theorem insertBanner_first_child_of_body (cfg : Config) (doc : Node)
    (h : ∃ q b, nodeAt q doc = some b ∧ isBody b = true) :
    ∃ p b out, insertBanner cfg doc = .returned out ∧ findBody doc [] none = some p ∧
      nodeAt p doc = some b ∧ isBody b = true ∧
      nodeAt p out = some (.mk b.data (usageBanner cfg :: b.children)) ∧
      (usageBanner cfg = .mk ⟨.ElementNode, 0, "p", "", []⟩
        [.mk ⟨.ElementNode, 0, "strong", "", []⟩
          [.mk ⟨.TextNode, 0, "👉 Run curl " ++ cfg.NewsUrl ++ "/help for usage", "", []⟩
            []]]) ∧
      ∀ q, (∀ r, q ≠ p ++ r) →
        (nodeAt q out).map Node.shape = (nodeAt q doc).map Node.shape := by
  obtain ⟨p, b, hfind, hp, hb⟩ := (findBody_spec doc [] none).1 h
  rw [List.nil_append] at hfind
  refine ⟨p, b, modifyAt p (fun n => n.InsertBeforeFirstChild (usageBanner cfg)) doc,
    ?_, hfind, hp, hb, ?_, rfl, ?_⟩
  · simp only [insertBanner, hfind]
  · rw [nodeAt_modifyAt_self, hp]
    cases b with
    | mk d cs =>
      cases cs with
      | nil => rfl
      | cons c cs => rfl
  · intro q hq
    exact nodeAt_modifyAt_shape _ p q doc hq

theorem insertBanner_first_child_of_body_witness :
    ∃ p b out, insertBanner sampleConfig sampleDocument = .returned out ∧
      findBody sampleDocument [] none = some p ∧
      nodeAt p sampleDocument = some b ∧ isBody b = true ∧
      nodeAt p out = some (.mk b.data (usageBanner sampleConfig :: b.children)) ∧
      (usageBanner sampleConfig = .mk ⟨.ElementNode, 0, "p", "", []⟩
        [.mk ⟨.ElementNode, 0, "strong", "", []⟩
          [.mk ⟨.TextNode, 0, "👉 Run curl " ++ sampleConfig.NewsUrl ++ "/help for usage",
            "", []⟩ []]]) ∧
      ∀ q, (∀ r, q ≠ p ++ r) →
        (nodeAt q out).map Node.shape = (nodeAt q sampleDocument).map Node.shape :=
  insertBanner_first_child_of_body sampleConfig sampleDocument
    ⟨[0, 1], .mk ⟨.ElementNode, 0, "body", "", []⟩ [.mk ⟨.ElementNode, 0, "h1", "", []⟩ []],
      rfl, rfl⟩

/-- C6, the code at a document without body that starts with a doctype: no body is found,
`doc.FirstChild` is the doctype node, and the banner goes in as child of the doctype node
while the html element keeps head as its first child. -/
theorem insertBanner_frameset_document (cfg : Config) (aHtml aHead aFrameset : Nat) :
    findBody (framesetDocument aHtml aHead aFrameset) [] none = none ∧
      insertBanner cfg (framesetDocument aHtml aHead aFrameset) =
        .returned (.mk ⟨.DocumentNode, 0, "", "", []⟩
          [.mk ⟨.DoctypeNode, 0, "html", "", []⟩ [usageBanner cfg],
            .mk ⟨.ElementNode, aHtml, "html", "", []⟩
              [.mk ⟨.ElementNode, aHead, "head", "", []⟩ [],
                .mk ⟨.ElementNode, aFrameset, "frameset", "", []⟩ []]]) ∧
      nodeAt [1, 0] (framesetDocument aHtml aHead aFrameset) =
        some (.mk ⟨.ElementNode, aHead, "head", "", []⟩ []) := by
  refine ⟨rfl, rfl, rfl⟩

/-! ## Feed order -/

theorem insertByLess_perm (less : Item → Item → Bool) (a : Item) (l : List Item) :
    (insertByLess less a l).Perm (a :: l) := by
  induction l with
  | nil => exact List.Perm.refl _
  | cons b l ih =>
    unfold insertByLess
    split_ifs
    · exact List.Perm.refl _
    · exact (List.Perm.cons b ih).trans (List.Perm.swap a b l)

theorem insertionSortByLess_perm (less : Item → Item → Bool) (l : List Item) :
    (insertionSortByLess less l).Perm l := by
  induction l with
  | nil => exact List.Perm.refl _
  | cons a l ih =>
    exact (insertByLess_perm less a _).trans (List.Perm.cons a ih)

theorem insertByLess_sorted (less : Item → Item → Bool) (a : Item) (l : List Item)
    (hirr : ∀ x ∈ a :: l, less x x = false)
    (htr : ∀ x ∈ a :: l, ∀ y ∈ a :: l, ∀ z ∈ a :: l,
      less x y = true → less y z = true → less x z = true)
    (hl : l.Pairwise (fun x y => less y x = false)) :
    (insertByLess less a l).Pairwise (fun x y => less y x = false) := by
  induction l with
  | nil => simp [insertByLess]
  | cons b l ih =>
    have ha : a ∈ a :: b :: l := List.mem_cons_self _ _
    have hb : b ∈ a :: b :: l := List.mem_cons_of_mem _ (List.mem_cons_self _ _)
    rw [List.pairwise_cons] at hl
    unfold insertByLess
    split_ifs with hab
    · refine List.pairwise_cons.mpr ⟨?_, List.pairwise_cons.mpr hl⟩
      intro y hy
      rcases List.mem_cons.mp hy with rfl | hyl
      · by_contra hya
        have := htr a ha y hb a ha hab (by simpa using hya)
        rw [hirr a ha] at this
        exact Bool.false_ne_true this
      · by_contra hya
        have hyl2 : y ∈ a :: b :: l := List.mem_cons_of_mem _ (List.mem_cons_of_mem _ hyl)
        have := htr y hyl2 a ha b hb (by simpa using hya) hab
        rw [hl.1 y hyl] at this
        exact Bool.false_ne_true this
    · have hsub : ∀ x, x ∈ a :: l → x ∈ a :: b :: l := by
        intro x hx
        rcases List.mem_cons.mp hx with rfl | hx
        · exact ha
        · exact List.mem_cons_of_mem _ (List.mem_cons_of_mem _ hx)
      have ih2 := ih (fun x hx => hirr x (hsub x hx))
        (fun x hx y hy z hz => htr x (hsub x hx) y (hsub y hy) z (hsub z hz)) hl.2
      refine List.pairwise_cons.mpr ⟨?_, ih2⟩
      intro y hy
      rcases List.mem_cons.mp ((insertByLess_perm less a l).subset hy) with rfl | hyl
      · simpa using hab
      · exact hl.1 y hyl

theorem insertionSortByLess_contract : SortSliceContract insertionSortByLess := by
  intro less xs
  refine ⟨insertionSortByLess_perm less xs, ?_⟩
  rintro ⟨hirr, htr, -⟩
  induction xs with
  | nil => simp [insertionSortByLess]
  | cons a l ih =>
    have hsub : ∀ x, x ∈ l → x ∈ a :: l := fun x hx => List.mem_cons_of_mem _ hx
    have ihl := ih (fun x hx => hirr x (hsub x hx))
      (fun x hx y hy z hz => htr x (hsub x hx) y (hsub y hy) z (hsub z hz))
    have hmem : ∀ x, x ∈ a :: insertionSortByLess less l → x ∈ a :: l := by
      intro x hx
      rcases List.mem_cons.mp hx with rfl | hx
      · exact List.mem_cons_self _ _
      · exact hsub x ((insertionSortByLess_perm less l).subset hx)
    exact insertByLess_sorted less a _ (fun x hx => hirr x (hmem x hx))
      (fun x hx y hy z hz => htr x (hmem x hx) y (hmem y hy) z (hmem z hz)) ihl

theorem lessByPubDate_ok (timeParse : String → Except GoError Int) (a b : Item) (ta tb : Int)
    (ha : timeParse a.PubDate = .ok ta) (hb : timeParse b.PubDate = .ok tb) :
    lessByPubDate timeParse a b = decide (ta < tb) := by
  simp only [lessByPubDate, ha, hb]

theorem lessByPubDate_strictWeakOn (timeParse : String → Except GoError Int)
    (items : List Item) (hp : ∀ it ∈ items, ∃ t, timeParse it.PubDate = .ok t) :
    StrictWeakOn (lessByPubDate timeParse) items := by
  refine ⟨?_, ?_, ?_⟩
  · intro a ha
    obtain ⟨ta, hta⟩ := hp a ha
    simp [lessByPubDate_ok timeParse a a ta ta hta hta]
  · intro a ha b hb c hc
    obtain ⟨ta, hta⟩ := hp a ha
    obtain ⟨tb, htb⟩ := hp b hb
    obtain ⟨tc, htc⟩ := hp c hc
    simp only [lessByPubDate_ok timeParse _ _ _ _ hta htb,
      lessByPubDate_ok timeParse _ _ _ _ htb htc, lessByPubDate_ok timeParse _ _ _ _ hta htc,
      decide_eq_true_eq]
    omega
  · intro a ha b hb c hc
    obtain ⟨ta, hta⟩ := hp a ha
    obtain ⟨tb, htb⟩ := hp b hb
    obtain ⟨tc, htc⟩ := hp c hc
    simp only [lessByPubDate_ok timeParse _ _ _ _ hta htb,
      lessByPubDate_ok timeParse _ _ _ _ htb hta,
      lessByPubDate_ok timeParse _ _ _ _ htb htc, lessByPubDate_ok timeParse _ _ _ _ htc htb,
      lessByPubDate_ok timeParse _ _ _ _ hta htc, lessByPubDate_ok timeParse _ _ _ _ htc hta,
      decide_eq_false_iff_not]
    omega

theorem sortItemList_sorted
    (sortSlice : (Item → Item → Bool) → List Item → List Item)
    (timeParse : String → Except GoError Int) (items : List Item)
    (hsort : SortSliceContract sortSlice)
    (hparse : ∀ it ∈ items, ∃ t, timeParse it.PubDate = .ok t) :
    (sortItemList sortSlice timeParse items).Pairwise (fun a b =>
      ∃ ta tb, timeParse a.PubDate = .ok ta ∧ timeParse b.PubDate = .ok tb ∧ ta ≤ tb) := by
  obtain ⟨hperm, hsorted⟩ := hsort (lessByPubDate timeParse) items
  refine List.Pairwise.imp_of_mem ?_
    (hsorted (lessByPubDate_strictWeakOn timeParse items hparse))
  intro a b ha hb hba
  obtain ⟨ta, hta⟩ := hparse a (hperm.subset ha)
  obtain ⟨tb, htb⟩ := hparse b (hperm.subset hb)
  rw [lessByPubDate_ok timeParse b a tb ta htb hta, decide_eq_false_iff_not] at hba
  exact ⟨ta, tb, hta, htb, by omega⟩

/-- C4: when the feed is fetched and unmarshalled into the entries `items`, every
`PubDate` parses under the fixed format and `sort.Slice` meets its contract, `getXML`
leaves in `rss` an item list that is a permutation of `items` and in which, for positions
`i < j`, the time of entry `i` is not after the time of entry `j`. -/
theorem getXML_sorts_by_pubDate (W : World) (Unmarshal : String → Except GoError Rss)
    (sortSlice : (Item → Item → Bool) → List Item → List Item)
    (timeParse : String → Except GoError Int) (cfg : Config) (body : String)
    (items : List Item)
    (hget : W.httpGet (cfg.BaseUrl ++ "/feed") = .ok (.ok body))
    (hxml : Unmarshal body = .ok ⟨some ⟨items⟩⟩)
    (hsort : SortSliceContract sortSlice)
    (hparse : ∀ it ∈ items, ∃ t, timeParse it.PubDate = .ok t) :
    ∃ sorted, getXML W Unmarshal sortSlice timeParse cfg = .returned ⟨some ⟨sorted⟩⟩ ∧
      sorted.Perm items ∧
      sorted.Pairwise (fun a b =>
        ∃ ta tb, timeParse a.PubDate = .ok ta ∧ timeParse b.PubDate = .ok tb ∧ ta ≤ tb) ∧
      (∀ (i j : Nat) (a b : Item), i < j → sorted[i]? = some a → sorted[j]? = some b →
        ∃ ta tb, timeParse a.PubDate = .ok ta ∧ timeParse b.PubDate = .ok tb ∧ ¬ tb < ta) := by
  have hpw := sortItemList_sorted sortSlice timeParse items hsort hparse
  refine ⟨sortItemList sortSlice timeParse items, ?_,
    (hsort (lessByPubDate timeParse) items).1, hpw, ?_⟩
  · simp only [getXML, hget, hxml]
  · intro i j a b hij hi hj
    obtain ⟨hi1, hi2⟩ := List.getElem?_eq_some_iff.mp hi
    obtain ⟨hj1, hj2⟩ := List.getElem?_eq_some_iff.mp hj
    have := List.pairwise_iff_getElem.mp hpw i j hi1 hj1 hij
    rw [hi2, hj2] at this
    obtain ⟨ta, tb, hta, htb, hle⟩ := this
    exact ⟨ta, tb, hta, htb, by omega⟩

theorem getXML_sorts_by_pubDate_witness :
    ∃ sorted, getXML sampleWorld (fun _ => .ok ⟨some ⟨sampleFeed⟩⟩) insertionSortByLess
        sampleTimeParse sampleConfig = .returned ⟨some ⟨sorted⟩⟩ ∧
      sorted.Perm sampleFeed ∧
      sorted.Pairwise (fun a b =>
        ∃ ta tb, sampleTimeParse a.PubDate = .ok ta ∧ sampleTimeParse b.PubDate = .ok tb ∧
          ta ≤ tb) ∧
      (∀ (i j : Nat) (a b : Item), i < j → sorted[i]? = some a → sorted[j]? = some b →
        ∃ ta tb, sampleTimeParse a.PubDate = .ok ta ∧ sampleTimeParse b.PubDate = .ok tb ∧
          ¬ tb < ta) :=
  getXML_sorts_by_pubDate sampleWorld (fun _ => .ok ⟨some ⟨sampleFeed⟩⟩) insertionSortByLess
    sampleTimeParse sampleConfig "<rss></rss>" sampleFeed rfl rfl
    insertionSortByLess_contract
    (by
      intro it hit
      simp only [sampleFeed, List.mem_cons, List.mem_singleton, List.not_mem_nil,
        or_false] at hit
      rcases hit with rfl | rfl
      · exact ⟨1136844245, rfl⟩
      · exact ⟨1136239445, rfl⟩)

end WebsiteUtility
